import Mathlib

/-!
Verification of the `parsecvs` CSV filter utility (src/parsecvs.go).

The Go program reads a CSV file, parses a filter expression of the form
`field,value;field,value;or(field,value;field,value)` into an AND map
(`andFilters : map[string]string`) and an OR map
(`orFilters : map[string][]string`), filters the in-memory records, and
prints the selected fields of each matching record joined by `", "`,
optionally deduplicated.

The embedding below models each Go function over `List Char` / `String`:
- `Record.Data : map[string]string` becomes an association list
  `List (String × String)`; `getData` models Go's map access, which
  returns the zero value `""` for a missing key.
- The regular expression `or\(([^)]+)\)` (leftmost match, greedy
  `[^)]+` which stops at the first `)`) is modelled by `findOr`;
  `ReplaceAllString(filter, "")` is modelled by `removeOr`.
- `os.Exit(2)` on an unknown field is modelled by `Option`: `none` is
  the exit-2 path.
-/

/-- Go `unicode.IsSpace` on a character (the set trimmed by
`strings.TrimSpace`). -/
def goIsSpace (c : Char) : Bool :=
  c = '\t' || c = '\n' || c = '\x0b' || c = '\x0c' || c = '\r' || c = ' ' ||
  c = '\x85' || c = '\xa0' || c = ' ' ||
  (' ' ≤ c && c ≤ ' ') ||
  c = ' ' || c = ' ' || c = ' ' || c = ' ' || c = '　'

/-- Go `strings.TrimSpace` on the character list of a string. -/
def trimSpace (s : List Char) : List Char :=
  ((s.dropWhile goIsSpace).reverse.dropWhile goIsSpace).reverse

/-- Go `strings.Split(s, sep)` for a one-character separator: splits at
every occurrence, keeping empty segments; the empty string yields `[[]]`. -/
def splitOnChar (sep : Char) : List Char → List (List Char)
  | [] => [[]]
  | c :: cs =>
    if c = sep then [] :: splitOnChar sep cs
    else
      match splitOnChar sep cs with
      | [] => [[c]]
      | g :: gs => (c :: g) :: gs

/-- Go `strings.SplitN(part, ",", 2)`: `some (before, after)` when the part
contains a comma (split at the first one), `none` when it does not
(in Go, a one-element slice). -/
def splitFirstComma : List Char → Option (List Char × List Char)
  | [] => none
  | c :: cs =>
    if c = ',' then some ([], cs)
    else (splitFirstComma cs).map (fun p => (c :: p.1, p.2))

/-- One attempt of the regex `or\(([^)]+)\)` starting right after `or(`:
the greedy `[^)]+` takes every character up to the first `)`, which must
exist and enclose at least one character. Returns the capture and the
characters after the closing `)`. -/
def takeToClose : List Char → Option (List Char × List Char)
  | [] => none
  | c :: cs =>
    if c = ')' then some ([], cs)
    else (takeToClose cs).map (fun p => (c :: p.1, p.2))

/-- Try to match `or\(([^)]+)\)` at the head of the character list. -/
def matchOrAt : List Char → Option (List Char × List Char)
  | 'o' :: 'r' :: '(' :: rest =>
    match takeToClose rest with
    | some (cap, after) => if cap.isEmpty then none else some (cap, after)
    | none => none
  | _ => none

/-- Go `orRegex.FindStringSubmatch`: the leftmost match of
`or\(([^)]+)\)`. Returns `(text before the match, capture group, text
after the match)`. -/
def findOr : List Char → Option (List Char × List Char × List Char)
  | [] => none
  | c :: cs =>
    match matchOrAt (c :: cs) with
    | some (cap, after) => some ([], cap, after)
    | none =>
      match findOr cs with
      | some (pre, cap, after) => some (c :: pre, cap, after)
      | none => none

/-- Go `orRegex.ReplaceAllString(filter, "")`: remove every
non-overlapping leftmost match of `or\(([^)]+)\)`, scanning left to
right. Fuel-based recursion; each step consumes the whole match (at
least five characters), so fuel equal to the list length always
suffices. -/
def removeOr : Nat → List Char → List Char
  | 0, s => s
  | fuel + 1, s =>
    match findOr s with
    | none => s
    | some (pre, _, after) => pre ++ removeOr fuel after

/-- Go map assignment `m[k] = v` on an association list: overwrite the
existing entry in place, or append a new one. -/
def insertAnd : List (String × String) → String → String → List (String × String)
  | [], k, v => [(k, v)]
  | (k', v') :: rest, k, v =>
    if k' = k then (k, v) :: rest else (k', v') :: insertAnd rest k v

/-- Go `m[k] = append(m[k], v)` on an association list of value lists. -/
def insertOr : List (String × List String) → String → String → List (String × List String)
  | [], k, v => [(k, [v])]
  | (k', vs) :: rest, k, v =>
    if k' = k then (k, vs ++ [v]) :: rest else (k', vs) :: insertOr rest k v

/-- The OR loop of `parseFilters` (src/parsecvs.go lines 126-137): for
each `;`-separated part of the captured group, skip it when it has no
comma; otherwise trim field and value, fail (exit 2, here `none`) when
the field is unknown, and append the value to the field's list. -/
def parsePairsOr (fields : List String) :
    List (List Char) → List (String × List String) → Option (List (String × List String))
  | [], acc => some acc
  | part :: rest, acc =>
    match splitFirstComma part with
    | none => parsePairsOr fields rest acc
    | some (k, v) =>
      let field := String.mk (trimSpace k)
      let value := String.mk (trimSpace v)
      if fields.contains field then parsePairsOr fields rest (insertOr acc field value)
      else none

/-- The AND loop of `parseFilters` (src/parsecvs.go lines 143-154): for
each `;`-separated part, skip it when it has no comma; otherwise trim
field and value, fail when the field is unknown, and assign
`andFilters[field] = value`. -/
def parsePairsAnd (fields : List String) :
    List (List Char) → List (String × String) → Option (List (String × String))
  | [], acc => some acc
  | part :: rest, acc =>
    match splitFirstComma part with
    | none => parsePairsAnd fields rest acc
    | some (k, v) =>
      let field := String.mk (trimSpace k)
      let value := String.mk (trimSpace v)
      if fields.contains field then parsePairsAnd fields rest (insertAnd acc field value)
      else none

/-- Go `parseFilters` (src/parsecvs.go lines 114-157). `none` models
`os.Exit(2)` on an unknown field; otherwise returns
`(andFilters, orFilters)`. The first regex match supplies the OR group;
`removeOr` then deletes every `or(...)` match from the string before it
is split on `;` for the AND conditions. -/
def parseFilters (filter : String) (fields : List String) :
    Option (List (String × String) × List (String × List String)) :=
  if filter = "" then some ([], [])
  else
    let cs := filter.data
    let orStep :=
      match findOr cs with
      | some (_, cap, _) => parsePairsOr fields (splitOnChar ';' cap) []
      | none => some []
    match orStep with
    | none => none
    | some orF =>
      let remaining :=
        match findOr cs with
        | some _ => removeOr cs.length cs
        | none => cs
      match parsePairsAnd fields (splitOnChar ';' remaining) [] with
      | none => none
      | some andF => some (andF, orF)

/-- Go map access `record.Data[field]`: the zero value `""` when the key
is missing. -/
def getData (r : List (String × String)) (f : String) : String :=
  match List.lookup f r with
  | some v => v
  | none => ""

/-- The AND loop of `filterRecords` (src/parsecvs.go lines 167-172):
every pair of `andFilters` must match the record exactly. -/
def andMatch (r : List (String × String)) (andF : List (String × String)) : Bool :=
  andF.all (fun p => getData r p.1 == p.2)

/-- The OR loop of `filterRecords` (src/parsecvs.go lines 176-184): some
value of some entry of `orFilters` must equal the record's field. -/
def orMatch (r : List (String × String)) (orF : List (String × List String)) : Bool :=
  orF.any (fun p => p.2.any (fun v => getData r p.1 == v))

/-- The per-record decision of `filterRecords` (src/parsecvs.go lines
164-186): `match := andMatch`; when that holds and `len(orFilters) > 0`,
`match` is overwritten by the OR result. -/
def matchRecord (r : List (String × String)) (andF : List (String × String))
    (orF : List (String × List String)) : Bool :=
  let m := andMatch r andF
  if m && !orF.isEmpty then orMatch r orF else m

/-- Go `filterRecords` (src/parsecvs.go lines 160-194): append each
matching record, in order, to the result. -/
def filterRecords (data : List (List (String × String)))
    (andF : List (String × String)) (orF : List (String × List String)) :
    List (List (String × String)) :=
  match data with
  | [] => []
  | r :: rest =>
    if matchRecord r andF orF then r :: filterRecords rest andF orF
    else filterRecords rest andF orF

/-- Go `formatSelectedFields` (src/parsecvs.go lines 197-203): build the
output slice by appending each listed field's value, then join with
`", "`. -/
def formatSelectedFields (r : List (String × String)) (fields : List String) : String :=
  String.intercalate ", " (fields.foldl (fun acc f => acc ++ [getData r f]) [])

/-- One record built in `main` (src/parsecvs.go lines 88-94):
`record.Data[header[i]] = value` for each value of the row. The CSV
reader guarantees every row has exactly the header's length. -/
def buildRecord (header row : List String) : List (String × String) :=
  (List.zip header row).foldl (fun acc kv => insertAnd acc kv.1 kv.2) []

/-- The `-unique` printing loop of `main` (src/parsecvs.go lines
100-110): `seen` is the `printedLines` set; a line already in it is
skipped, otherwise it is recorded and printed. -/
def dedupGo (seen : List String) : List String → List String
  | [] => []
  | l :: rest =>
    if seen.contains l then dedupGo seen rest
    else l :: dedupGo (l :: seen) rest

/-- The whole `-unique` pass: start with an empty `printedLines` set. -/
def dedupLines (lines : List String) : List String :=
  dedupGo [] lines

/-- Keep the first occurrence of every line and drop all later equal
lines. Stated from the spec's words ("suppress any line identical to
one already emitted earlier, order of first occurrence preserved");
proved equal to `dedupLines`. -/
def firstOccurrences : List String → List String
  | [] => []
  | l :: rest => l :: firstOccurrences (rest.filter (fun x => !(x == l)))
termination_by lines => lines.length
decreasing_by
  simp only [List.length_cons]
  exact Nat.lt_succ_of_le (List.length_filter_le _ _)

/-- The observable outcome of one run of `main`, given the records the
CSV reader produced. `badSource` is the exit-1 path for fewer than two
records; `fieldError` is any `os.Exit(2)` path; `listed` is the
`-list-fields` path (the header's field names printed one per line,
exit 0); `printed` is the normal path (one line per surviving record,
exit 0). -/
inductive Outcome where
  | badSource : Outcome
  | fieldError : Outcome
  | listed : List String → Outcome
  | printed : List String → Outcome
deriving DecidableEq

/-- The process exit status of each outcome. -/
def exitCode : Outcome → Nat
  | Outcome.badSource => 1
  | Outcome.fieldError => 2
  | Outcome.listed _ => 0
  | Outcome.printed _ => 0

/-- The tail of `main` after field-selection validation (src/parsecvs.go
lines 83-110): parse the filters (exit 2 on an unknown field), build the
records, filter them, format the selected fields of each survivor, and
deduplicate when `-unique` is set. -/
def runFilters (header : List String) (rows : List (List String)) (filter : String)
    (fieldsToPrint : List String) (unique : Bool) : Outcome :=
  match parseFilters filter header with
  | none => Outcome.fieldError
  | some (andF, orF) =>
    let data := rows.map (buildRecord header)
    let filtered := filterRecords data andF orF
    let lines := filtered.map (fun r => formatSelectedFields r fieldsToPrint)
    Outcome.printed (if unique then dedupLines lines else lines)

/-- Go `main` from the length check onward (src/parsecvs.go lines
48-110), as a function of the records read from the CSV file and the
flag values: fewer than two records is exit 1; `-list-fields` prints
the header and exits 0 before any validation or filter parsing; an
empty `-select-fields` defaults to the header, a non-empty one is split
on `,` and every named field must exist (exit 2 otherwise). -/
def runProgram (records : List (List String)) (filter sel : String)
    (unique listFields : Bool) : Outcome :=
  match records with
  | [] => Outcome.badSource
  | [_] => Outcome.badSource
  | header :: r0 :: rest =>
    if listFields then Outcome.listed header
    else if sel = "" then runFilters header (r0 :: rest) filter header unique
    else
      let fieldsToPrint := (splitOnChar ',' sel.data).map String.mk
      if fieldsToPrint.all (fun f => header.contains f) then
        runFilters header (r0 :: rest) filter fieldsToPrint unique
      else Outcome.fieldError

/-- The field name of a well-formed `field,value` part: the trimmed text
before the first comma. -/
def pairField (part : List Char) : Option String :=
  (splitFirstComma part).map (fun kv => String.mk (trimSpace kv.1))

/-- Every field name referenced by a filter expression: the fields of
the well-formed pairs of the first `or(...)` capture, followed by the
fields of the well-formed pairs of the remaining `;`-separated parts. -/
def referencedFields (filter : String) : List String :=
  let cs := filter.data
  let orFs :=
    match findOr cs with
    | some (_, cap, _) => (splitOnChar ';' cap).filterMap pairField
    | none => []
  let remaining :=
    match findOr cs with
    | some _ => removeOr cs.length cs
    | none => cs
  orFs ++ (splitOnChar ';' remaining).filterMap pairField

example : splitOnChar ';' "a;b;;c".data = ["a".data, "b".data, "".data, "c".data] := by decide

example : findOr "x;or(A,1);y".data = some ("x;".data, "A,1".data, ";y".data) := by decide

example : findOr "or(".data = none := by decide

example : removeOr 20 "C,4;or(A,1);or(B,2)".data = "C,4;;".data := by decide

example : parseFilters "A,1;B,2" ["A", "B"] = some ([("A", "1"), ("B", "2")], []) := by decide

example : parseFilters "or(A,1;A,2)" ["A"] = some ([], [("A", ["1", "2"])]) := by decide

example : parseFilters "A,1;B,2" ["A"] = none := by decide

example : referencedFields "C,4;or(A,1);or(B,2)" = ["A", "C"] := by decide

example : runProgram [["A", "B"], ["1", "2"], ["1", "3"]] "A,1" "" false false =
    Outcome.printed ["1, 2", "1, 3"] := by decide

example : runProgram [["A", "B"], ["1", "2"], ["1", "3"]] "" "B" true false =
    Outcome.printed ["2", "3"] := by decide

example : runProgram [["A"], ["1"]] "" "Z" false false = Outcome.fieldError := by decide

example : runProgram [["A"], ["1"]] "Z,1" "" false false = Outcome.fieldError := by decide

example : runProgram [["A"], ["1"]] "Z,1" "Z" false true = Outcome.listed ["A"] := by decide

example : dedupLines ["a", "a", "b", "a"] = ["a", "b"] := by decide

theorem filterRecords_eq_filter (data : List (List (String × String)))
    (andF : List (String × String)) (orF : List (String × List String)) :
    filterRecords data andF orF = data.filter (fun r => matchRecord r andF orF) := by
  induction data with
  | nil => rfl
  | cons r rest ih =>
    simp only [filterRecords, List.filter_cons]
    cases h : matchRecord r andF orF <;> simp [h, ih]

theorem andMatch_iff (r : List (String × String)) (andF : List (String × String)) :
    andMatch r andF = true ↔ ∀ p ∈ andF, getData r p.1 = p.2 := by
  simp [andMatch, List.all_eq_true]

theorem orMatch_eq_false (r : List (String × String)) (orF : List (String × List String))
    (h : ∀ p ∈ orF, ∀ v ∈ p.2, getData r p.1 ≠ v) :
    orMatch r orF = false := by
  cases hb : orMatch r orF with
  | false => rfl
  | true =>
    exfalso
    rw [orMatch, List.any_eq_true] at hb
    obtain ⟨p, hp, hpv⟩ := hb
    rw [List.any_eq_true] at hpv
    obtain ⟨v, hv, heq⟩ := hpv
    exact h p hp v hv (by simpa using heq)

/-- Claim C1: when a disjunction group is present and non-empty and no
(field, value) pair of it matches the record, `matchRecord` is false
regardless of the conjunction set: the disjunction group is
mandatory-if-present. -/
theorem claim1_or_group_mandatory (r : List (String × String))
    (andF : List (String × String)) (orF : List (String × List String))
    (hne : orF ≠ [])
    (hno : ∀ p ∈ orF, ∀ v ∈ p.2, getData r p.1 ≠ v) :
    matchRecord r andF orF = false := by
  have hor := orMatch_eq_false r orF hno
  have hemp : orF.isEmpty = false := by
    cases orF with
    | nil => exact absurd rfl hne
    | cons p ps => rfl
  unfold matchRecord
  cases ham : andMatch r andF <;> simp [ham, hemp, hor]

theorem claim1_witness :
    ([("A", ["1"])] : List (String × List String)) ≠ [] ∧
      matchRecord [("B", "2")] [] [("A", ["1"])] = false := by
  refine ⟨by decide, claim1_or_group_mandatory [("B", "2")] [] [("A", ["1"])] (by decide) ?_⟩
  decide

/-- Claim C2, counterexample: a record with no entry for field `A`
nevertheless passes a conjunction requiring `A = ""`, because Go's map
access returns the zero value `""` for a missing key. The claim's
convention "a field missing from the record counts as non-equal to the
required value" would make this record fail. -/
theorem claim2_counterexample :
    List.lookup "A" ([] : List (String × String)) = none ∧
      matchRecord [] [("A", "")] [] = true := by
  exact ⟨rfl, by decide⟩

/-- Claim C2 as amended: a field missing from the record is read as the
empty string, so it counts as non-equal to any non-empty required
value; the record fails as soon as some conjunction pair differs from
the record's (defaulted) value, and it passes the conjunction stage iff
every pair matches exactly. -/
theorem claim2_conjunction_exact (r : List (String × String))
    (andF : List (String × String)) (orF : List (String × List String)) :
    (andMatch r andF = true ↔ ∀ p ∈ andF, getData r p.1 = p.2)
    ∧ ((∃ p ∈ andF, getData r p.1 ≠ p.2) → matchRecord r andF orF = false)
    ∧ (∀ p ∈ andF, List.lookup p.1 r = none → p.2 ≠ "" →
        matchRecord r andF orF = false) := by
  refine ⟨andMatch_iff r andF, ?_, ?_⟩
  · intro hex
    have ham : andMatch r andF = false := by
      cases hb : andMatch r andF with
      | false => rfl
      | true =>
        obtain ⟨p, hp, hne⟩ := hex
        exact absurd ((andMatch_iff r andF).mp hb p hp) hne
    unfold matchRecord
    simp [ham]
  · intro p hp hlook hv
    have hget : getData r p.1 = "" := by
      unfold getData
      rw [hlook]
    have hex : ∃ p ∈ andF, getData r p.1 ≠ p.2 := ⟨p, hp, by rw [hget]; exact fun h => hv h.symm⟩
    have ham : andMatch r andF = false := by
      cases hb : andMatch r andF with
      | false => rfl
      | true =>
        obtain ⟨q, hq, hne⟩ := hex
        exact absurd ((andMatch_iff r andF).mp hb q hq) hne
    unfold matchRecord
    simp [ham]

theorem claim2_witness :
    matchRecord [("A", "1")] [("A", "2")] [] = false ∧
      matchRecord [("B", "x")] [("A", "y")] [] = false := by
  constructor
  · exact (claim2_conjunction_exact [("A", "1")] [("A", "2")] []).2.1
      ⟨("A", "2"), by decide, by decide⟩
  · exact (claim2_conjunction_exact [("B", "x")] [("A", "y")] []).2.2
      ("A", "y") (by decide) rfl (by decide)

/-- Claim C3: the empty filter string parses to an empty conjunction set
and an absent (empty) disjunction group, and every record matches that
result. -/
theorem claim3_empty_filter (fields : List String) (r : List (String × String)) :
    parseFilters "" fields = some ([], []) ∧ matchRecord r [] [] = true := by
  exact ⟨rfl, rfl⟩

theorem foldl_append_eq_map (g : String → String) (fields : List String) :
    ∀ acc : List String,
      fields.foldl (fun a f => a ++ [g f]) acc = acc ++ fields.map g := by
  induction fields with
  | nil => intro acc; simp
  | cons f fs ih =>
    intro acc
    simp [List.foldl_cons, ih]

/-- Claim C6: the projector builds the output line by looking up each
listed field in order, a missing field contributing the empty string,
joined with the fixed separator `", "`; it is a pure total function, so
two calls on the same arguments agree. -/
theorem claim6_projector (r : List (String × String)) (fields : List String) :
    (formatSelectedFields r fields =
      String.intercalate ", " (fields.map (fun f =>
        match List.lookup f r with
        | some v => v
        | none => "")))
    ∧ formatSelectedFields r fields = formatSelectedFields r fields := by
  refine ⟨?_, rfl⟩
  unfold formatSelectedFields
  rw [foldl_append_eq_map (getData r) fields []]
  rfl

/-- Claim C9: `filterRecords` is exactly the list filter by the match
predicate, hence an order-preserving subsequence of its input: every
returned record occurs in the input, at most as often as there, and in
the input's relative order. -/
theorem claim9_subsequence (data : List (List (String × String)))
    (andF : List (String × String)) (orF : List (String × List String)) :
    (filterRecords data andF orF = data.filter (fun r => matchRecord r andF orF))
    ∧ List.Sublist (filterRecords data andF orF) data
    ∧ (∀ r, (filterRecords data andF orF).count r ≤ data.count r)
    ∧ (∀ r, r ∈ filterRecords data andF orF → r ∈ data) := by
  have heq := filterRecords_eq_filter data andF orF
  have hsub : List.Sublist (filterRecords data andF orF) data := by
    rw [heq]
    exact List.filter_sublist data
  exact ⟨heq, hsub, fun r => hsub.count_le r, fun r hr => hsub.subset hr⟩

theorem claim9_witness :
    ([("A", "1")] : List (String × String)) ∈ [[("A", "1")]] :=
  (claim9_subsequence [[("A", "1")]] [] []).2.2.2 [("A", "1")] (by decide)

/-- Claim C10: the disjunction group comes only from the first `or(...)`
match of the filter string (its repeated fields accumulating their
values), while every `or(...)` match is removed from the string before
the remainder is split on `;` for the conjunction set, so the pairs of
any second or later `or(...)` segment are silently discarded. -/
theorem claim10_or_extraction :
    (∀ (filter : String) (fields : List String)
      (pre cap suf : List Char),
      filter ≠ "" →
      findOr filter.data = some (pre, cap, suf) →
      parseFilters filter fields =
        match parsePairsOr fields (splitOnChar ';' cap) [] with
        | none => none
        | some orF =>
          match parsePairsAnd fields
              (splitOnChar ';' (removeOr filter.data.length filter.data)) [] with
          | none => none
          | some andF => some (andF, orF))
    ∧ parseFilters "or(A,1;A,2)or(B,3)" ["A", "B"] = some ([], [("A", ["1", "2"])])
    ∧ parseFilters "C,4;or(A,1);or(B,2)" ["A", "B", "C"] =
        some ([("C", "4")], [("A", ["1"])]) := by
  refine ⟨?_, by decide, by decide⟩
  intro filter fields pre cap suf hne hfind
  simp only [parseFilters, if_neg hne, hfind]

theorem claim10_witness :
    parseFilters "or(A,1)" ["A"] =
      match parsePairsOr ["A"] (splitOnChar ';' "A,1".data) [] with
      | none => none
      | some orF =>
        match parsePairsAnd ["A"]
            (splitOnChar ';' (removeOr "or(A,1)".data.length "or(A,1)".data)) [] with
        | none => none
        | some andF => some (andF, orF) :=
  claim10_or_extraction.1 "or(A,1)" ["A"] [] "A,1".data [] (by decide) (by decide)

/-- Claim C5: a `;`-separated segment with no comma is silently skipped
by both filter loops — dropping all such segments changes neither loop's
result and causes no error — so a mix of well-formed and malformed
segments yields exactly the well-formed segments' constraints. -/
theorem claim5_malformed_skipped :
    (∀ (fields : List String) (parts : List (List Char)) (acc : List (String × String)),
      parsePairsAnd fields parts acc =
        parsePairsAnd fields (parts.filter (fun p => (splitFirstComma p).isSome)) acc)
    ∧ (∀ (fields : List String) (parts : List (List Char)) (acc : List (String × List String)),
      parsePairsOr fields parts acc =
        parsePairsOr fields (parts.filter (fun p => (splitFirstComma p).isSome)) acc)
    ∧ parseFilters "garbage;A,1;" ["A"] = some ([("A", "1")], []) := by
  refine ⟨?_, ?_, by decide⟩
  · intro fields parts
    induction parts with
    | nil => intro acc; rfl
    | cons part rest ih =>
      intro acc
      cases hsc : splitFirstComma part with
      | none => simp [parsePairsAnd, hsc, List.filter_cons, ih]
      | some kv =>
        simp only [parsePairsAnd, hsc, List.filter_cons, Option.isSome_some, if_pos]
        cases hc : List.contains fields (String.mk (trimSpace kv.1)) <;> simp [hc, ih]
  · intro fields parts
    induction parts with
    | nil => intro acc; rfl
    | cons part rest ih =>
      intro acc
      cases hsc : splitFirstComma part with
      | none => simp [parsePairsOr, hsc, List.filter_cons, ih]
      | some kv =>
        simp only [parsePairsOr, hsc, List.filter_cons, Option.isSome_some, if_pos]
        cases hc : List.contains fields (String.mk (trimSpace kv.1)) <;> simp [hc, ih]

/-- Claim C8: with `-list-fields` set and a source of at least two
records (header plus one data row), the program prints the header's
field names and exits with status 0, for every filter expression and
field selection — no filter is parsed or evaluated. -/
theorem claim8_list_fields (header r0 : List String) (rest : List (List String))
    (filter sel : String) (unique : Bool) :
    runProgram (header :: r0 :: rest) filter sel unique true = Outcome.listed header
    ∧ exitCode (Outcome.listed header) = 0 :=
  ⟨rfl, rfl⟩

theorem filter_seen_cons (rest : List String) (l : String) (seen : List String) :
    rest.filter (fun x => !((l :: seen).contains x)) =
      (rest.filter (fun x => !(seen.contains x))).filter (fun x => !(x == l)) := by
  rw [List.filter_filter]
  apply List.filter_congr
  intro x _
  have hc : (l :: seen).contains x = ((x == l) || seen.contains x) := rfl
  rw [hc, Bool.not_or]

theorem dedupGo_eq_firstOccurrences (lines : List String) :
    ∀ seen, dedupGo seen lines =
      firstOccurrences (lines.filter (fun l => !(seen.contains l))) := by
  induction lines with
  | nil =>
    intro seen
    rw [List.filter_nil, firstOccurrences]
    rfl
  | cons l rest ih =>
    intro seen
    cases hsl : seen.contains l with
    | true =>
      simp only [dedupGo, hsl, if_pos, List.filter_cons, Bool.not_true]
      exact ih seen
    | false =>
      simp only [dedupGo, hsl, List.filter_cons, Bool.not_false, Bool.false_eq_true,
        not_false_iff, if_true, if_false]
      rw [ih (l :: seen), firstOccurrences, filter_seen_cons]

/-- Claim C7: with `-unique`, the printing loop suppresses every line
exactly equal to one emitted earlier — the output is the first
occurrence of each distinct line, in first-occurrence order — and in
particular two distinct lines `a, a, b, a` come out as `a, b`. -/
theorem claim7_unique_dedup :
    (∀ lines, dedupLines lines = firstOccurrences lines)
    ∧ (∀ a b : String, a ≠ b → dedupLines [a, a, b, a] = [a, b]) := by
  have hall : ∀ lines, dedupLines lines = firstOccurrences lines := by
    intro lines
    rw [dedupLines, dedupGo_eq_firstOccurrences lines []]
    congr 1
    apply List.filter_eq_self.mpr
    intro a _
    rfl
  refine ⟨hall, ?_⟩
  intro a b hab
  have haa : (a == a) = true := by simp
  have hba : (b == a) = false := by
    simp only [beq_eq_false_iff_ne, ne_eq]
    exact fun h => hab h.symm
  have hab' : (a == b) = false := by
    simp only [beq_eq_false_iff_ne, ne_eq]
    exact hab
  have h1 : ([] : List String).contains a = false := rfl
  have h2 : ([a] : List String).contains a = true := by
    have hc : ([a] : List String).contains a = ((a == a) || false) := rfl
    rw [hc, haa, Bool.true_or]
  have h3 : ([a] : List String).contains b = false := by
    have hc : ([a] : List String).contains b = ((b == a) || false) := rfl
    rw [hc, hba, Bool.false_or]
  have h4 : ([b, a] : List String).contains a = true := by
    have hc : ([b, a] : List String).contains a = ((a == b) || ((a == a) || false)) := rfl
    rw [hc, hab', haa]
    rfl
  simp [dedupLines, dedupGo, h1, h2, h3, h4]
  exact fun h => hab h.symm

theorem claim7_witness : dedupLines ["a", "a", "b", "a"] = ["a", "b"] :=
  claim7_unique_dedup.2 "a" "b" (by decide)

theorem parsePairsOr_none_of_bad (fields : List String) (parts : List (List Char))
    (part k v : List Char)
    (hmem : part ∈ parts) (hsc : splitFirstComma part = some (k, v))
    (hbad : fields.contains (String.mk (trimSpace k)) = false) :
    ∀ acc, parsePairsOr fields parts acc = none := by
  induction parts with
  | nil => cases hmem
  | cons p ps ih =>
    intro acc
    rcases List.mem_cons.mp hmem with heq | hmem'
    · subst heq
      simp only [parsePairsOr, hsc]
      rw [hbad]
      simp
    · cases hsc' : splitFirstComma p with
      | none =>
        simp only [parsePairsOr, hsc']
        exact ih hmem' acc
      | some kv =>
        simp only [parsePairsOr, hsc']
        cases hc : fields.contains (String.mk (trimSpace kv.1)) with
        | true => simp only [hc, if_true]; exact ih hmem' _
        | false => simp [hc]

theorem parsePairsAnd_none_of_bad (fields : List String) (parts : List (List Char))
    (part k v : List Char)
    (hmem : part ∈ parts) (hsc : splitFirstComma part = some (k, v))
    (hbad : fields.contains (String.mk (trimSpace k)) = false) :
    ∀ acc, parsePairsAnd fields parts acc = none := by
  induction parts with
  | nil => cases hmem
  | cons p ps ih =>
    intro acc
    rcases List.mem_cons.mp hmem with heq | hmem'
    · subst heq
      simp only [parsePairsAnd, hsc]
      rw [hbad]
      simp
    · cases hsc' : splitFirstComma p with
      | none =>
        simp only [parsePairsAnd, hsc']
        exact ih hmem' acc
      | some kv =>
        simp only [parsePairsAnd, hsc']
        cases hc : fields.contains (String.mk (trimSpace kv.1)) with
        | true => simp only [hc, if_true]; exact ih hmem' _
        | false => simp [hc]

theorem pairField_bad (fields : List String) (part : List Char) (f : String)
    (hpf : pairField part = some f) (hbad : fields.contains f = false) :
    ∃ k v, splitFirstComma part = some (k, v) ∧
      fields.contains (String.mk (trimSpace k)) = false := by
  unfold pairField at hpf
  cases hsc : splitFirstComma part with
  | none => rw [hsc] at hpf; cases hpf
  | some kv =>
    rw [hsc] at hpf
    have hpf2 : String.mk (trimSpace kv.1) = f := Option.some.inj hpf
    exact ⟨kv.1, kv.2, rfl, hpf2 ▸ hbad⟩

theorem parseFilters_none_of_bad (filter : String) (fields : List String) (f : String)
    (hf : f ∈ referencedFields filter) (hbad : fields.contains f = false) :
    parseFilters filter fields = none := by
  have hne : filter ≠ "" := by
    intro h
    subst h
    have hempty : referencedFields "" = [] := rfl
    rw [hempty] at hf
    cases hf
  cases hfind : findOr filter.data with
  | none =>
    simp only [referencedFields, hfind, List.nil_append] at hf
    rw [List.mem_filterMap] at hf
    obtain ⟨part, hmem, hpf⟩ := hf
    obtain ⟨k, v, hsc, hkbad⟩ := pairField_bad fields part f hpf hbad
    have hand := parsePairsAnd_none_of_bad fields _ part k v hmem hsc hkbad []
    simp only [parseFilters, if_neg hne, hfind, hand]
  | some m =>
    obtain ⟨pre, cap, suf⟩ := m
    simp only [referencedFields, hfind, List.mem_append] at hf
    rcases hf with hfor | hfand
    · rw [List.mem_filterMap] at hfor
      obtain ⟨part, hmem, hpf⟩ := hfor
      obtain ⟨k, v, hsc, hkbad⟩ := pairField_bad fields part f hpf hbad
      have hor := parsePairsOr_none_of_bad fields _ part k v hmem hsc hkbad []
      simp only [parseFilters, if_neg hne, hfind, hor]
    · rw [List.mem_filterMap] at hfand
      obtain ⟨part, hmem, hpf⟩ := hfand
      obtain ⟨k, v, hsc, hkbad⟩ := pairField_bad fields part f hpf hbad
      have hand := parsePairsAnd_none_of_bad fields _ part k v hmem hsc hkbad []
      simp only [parseFilters, if_neg hne, hfind, hand]
      cases parsePairsOr fields (splitOnChar ';' cap) [] <;> rfl

/-- Claim C4: on a well-formed source (header plus at least one data
row) without `-list-fields`, a field named by `-select-fields` or
referenced by a well-formed pair of the filter expression that is
absent from the header makes the program exit with code 2, whatever the
data rows are, and no data lines are printed (the outcome carries
none). -/
theorem claim4_unknown_field (header r0 : List String) (rest : List (List String))
    (filter sel : String) (unique : Bool)
    (hbad : (sel ≠ "" ∧ ∃ f ∈ (splitOnChar ',' sel.data).map String.mk,
          header.contains f = false)
        ∨ (∃ f ∈ referencedFields filter, header.contains f = false)) :
    runProgram (header :: r0 :: rest) filter sel unique false = Outcome.fieldError
    ∧ exitCode Outcome.fieldError = 2 := by
  refine ⟨?_, rfl⟩
  by_cases hsel : sel = ""
  · rcases hbad with ⟨hne, _⟩ | ⟨f, hf, hfbad⟩
    · exact absurd hsel hne
    · simp [runProgram, hsel, runFilters,
        parseFilters_none_of_bad filter header f hf hfbad]
  · cases hall : ((splitOnChar ',' sel.data).map String.mk).all
        (fun f => header.contains f) with
    | false =>
      unfold runProgram
      simp only [Bool.false_eq_true, if_false, if_neg hsel, hall]
    | true =>
      have hfilt : ∃ f ∈ referencedFields filter, header.contains f = false := by
        rcases hbad with ⟨_, f, hf, hfbad⟩ | h
        · rw [List.all_eq_true] at hall
          have := hall f hf
          rw [hfbad] at this
          cases this
        · exact h
      obtain ⟨f, hf, hfbad⟩ := hfilt
      simp [runProgram, hsel, hall, runFilters,
        parseFilters_none_of_bad filter header f hf hfbad]

theorem claim4_witness :
    runProgram [["A"], ["1"]] "B,1" "" false false = Outcome.fieldError
    ∧ exitCode Outcome.fieldError = 2 :=
  claim4_unknown_field ["A"] ["1"] [] "B,1" "" false
    (Or.inr ⟨"B", by decide, by decide⟩)
